import Mathlib

/-!
Verification of the peer-wire download engine of a BitTorrent client
written in Rust.  The Rust sources are embedded shallowly: pure functions
become Lean functions, stateful components become explicit state passing,
machine integers become Nat with explicit reduction modulo two to the
word width where overflow matters, and fallible code returns Except or
Option.  Theorems at the end of the file settle the claims of the
specification against these embeddings.
-/

namespace BitTorrent

/-! Definitions: throttle queue, from util/throttle.rs. -/

/-- Keys of the throttle queue are 20-byte hashes (Bytes20 in util/bytes.rs);
modelled as byte lists. -/
abbrev Key := List Nat

/-- State of ThrottleQueue from util/throttle.rs.  The injected callback cb
is modelled by logging, in the field sent, every item the queue hands to it,
in order. -/
structure ThrottleQueue (T : Type) where
  waitings : List T
  processings : List Key
  capacity : Nat
  sent : List T

/-- HashSet::insert on the processings set, modelled as a list that never
holds duplicates. -/
def insertKey (k : Key) (l : List Key) : List Key :=
  if k ∈ l then l else k :: l

namespace ThrottleQueue

/-- ThrottleQueue::new. -/
def new (T : Type) (capacity : Nat) : ThrottleQueue T :=
  { waitings := [], processings := [], capacity := capacity, sent := [] }

/-- ThrottleQueue::is_full. -/
def is_full {T : Type} (q : ThrottleQueue T) : Bool :=
  decide (q.capacity ≤ q.processings.length)

/-- ThrottleQueue::push_waiting. -/
def push_waiting {T : Type} (q : ThrottleQueue T) (item : T) : ThrottleQueue T :=
  { q with waitings := q.waitings ++ [item] }

/-- ThrottleQueue::push: record the key of the item as in-flight and invoke
the sender callback on the item. -/
def push {T : Type} (keyHash : T → Key) (q : ThrottleQueue T) (item : T) :
    ThrottleQueue T :=
  { q with processings := insertKey (keyHash item) q.processings,
           sent := q.sent ++ [item] }

/-- ThrottleQueue::queue. -/
def queue {T : Type} (keyHash : T → Key) (q : ThrottleQueue T) (item : T) :
    ThrottleQueue T :=
  if q.is_full then q.push_waiting item
  else q.push keyHash item

/-- ThrottleQueue::done.  In the branch where the hash is not in-flight the
source retains exactly the waiting items whose key EQUALS the hash. -/
def done {T : Type} (keyHash : T → Key) (q : ThrottleQueue T) (hash : Key) :
    ThrottleQueue T :=
  if hash ∈ q.processings then
    match q.waitings with
    | [] => { q with processings := q.processings.erase hash }
    | item :: rest =>
        push keyHash
          { q with processings := q.processings.erase hash, waitings := rest } item
  else
    { q with waitings := q.waitings.filter (fun item => keyHash item == hash) }

end ThrottleQueue

/-- One client operation on a throttle queue. -/
inductive ThrottleOp (T : Type) where
  | queue (item : T)
  | done (hash : Key)

/-- Run a sequence of operations against a throttle queue state. -/
def runThrottle {T : Type} (keyHash : T → Key) :
    ThrottleQueue T → List (ThrottleOp T) → ThrottleQueue T
  | q, [] => q
  | q, ThrottleOp.queue item :: ops => runThrottle keyHash (q.queue keyHash item) ops
  | q, ThrottleOp.done h :: ops => runThrottle keyHash (q.done keyHash h) ops

/-! Definitions: piece reassembly, from net/piece.rs. -/

/-- Piece from net/piece.rs. -/
structure Piece where
  index : Nat
  data : List Nat
deriving DecidableEq

/-- HashMap::insert with Nat keys, modelled on an association list with
unique keys: replaces an existing binding, else appends. -/
def mapInsert {A : Type} (k : Nat) (v : A) : List (Nat × A) → List (Nat × A)
  | [] => [(k, v)]
  | (k0, v0) :: rest =>
      if k0 = k then (k, v) :: rest else (k0, v0) :: mapInsert k v rest

/-- HashMap::get with Nat keys. -/
def mapLookup {A : Type} (k : Nat) : List (Nat × A) → Option A
  | [] => none
  | (k0, v0) :: rest => if k0 = k then some v0 else mapLookup k rest

/-- HashMap::remove with Nat keys. -/
def mapRemove {A : Type} (k : Nat) : List (Nat × A) → List (Nat × A)
  | [] => []
  | (k0, v0) :: rest =>
      if k0 = k then rest else (k0, v0) :: mapRemove k rest

/-- Blocks from net/piece.rs: one accumulator, holding the piece index, the
expected piece length, and the mapping from offsets to held blocks. -/
structure Blocks where
  index : Nat
  length : Nat
  blocks : List (Nat × List Nat)
deriving DecidableEq

namespace Blocks

/-- Blocks::new. -/
def new (index : Nat) (length : Nat) : Blocks :=
  { index := index, length := length, blocks := [] }

/-- Blocks::insert_block: stores the block at the offset, with no bounds
check on the offset or on the block length. -/
def insert_block (b : Blocks) (begin : Nat) (data : List Nat) : Blocks :=
  { b with blocks := mapInsert begin data b.blocks }

/-- Blocks::len: sum of the held block lengths. -/
def len (b : Blocks) : Nat :=
  (b.blocks.map (fun p => p.2.length)).sum

/-- Blocks::is_complete. -/
def is_complete (b : Blocks) : Bool :=
  b.len == b.length

end Blocks

/-- The Rust write data[begin..begin + block.len()].copy_from_slice(block).
Returns none when the range lies outside the buffer, which in Rust is an
out-of-bounds slice index, i.e. a panic. -/
def writeBlock (data : List Nat) (begin : Nat) (block : List Nat) :
    Option (List Nat) :=
  if begin + block.length ≤ data.length then
    some (data.take begin ++ block ++ data.drop (begin + block.length))
  else none

/-- The write loop of Blocks::into_piece over the held blocks. -/
def writeAll (data : List Nat) : List (Nat × List Nat) → Option (List Nat)
  | [] => some data
  | (begin, block) :: rest =>
      match writeBlock data begin block with
      | some data1 => writeAll data1 rest
      | none => none

/-- Blocks::into_piece.  The Except layer models a Rust panic: Except.error
is returned exactly when some held block is written out of bounds. -/
def Blocks.into_piece (b : Blocks) : Except Unit (Option Piece) :=
  if b.is_complete then
    match writeAll (List.replicate b.length 0) b.blocks with
    | some data => .ok (some { index := b.index, data := data })
    | none => .error ()
  else .ok none

/-- PieceManager from net/piece.rs.  The mpsc sender is modelled by the list
sent of the pieces pushed into the channel, in order. -/
structure PieceManager where
  blocks : List (Nat × Blocks)
  sent : List Piece
deriving DecidableEq

namespace PieceManager

/-- PieceManager::new. -/
def new : PieceManager := { blocks := [], sent := [] }

/-- PieceManager::new_block: open an accumulator for the index. -/
def new_block (pm : PieceManager) (index : Nat) (piece_length : Nat) :
    PieceManager :=
  { pm with blocks := mapInsert index (Blocks.new index piece_length) pm.blocks }

/-- PieceManager::insert_block.  The Except layer models a panic propagated
from Blocks::into_piece; in the source the only constructed error value is
ChannelClosed, which cannot occur while the receiver is alive, so the
channel send is modelled as always succeeding. -/
def insert_block (pm : PieceManager) (index : Nat) (begin : Nat)
    (data : List Nat) : Except Unit PieceManager :=
  let pm1 : PieceManager :=
    match mapLookup index pm.blocks with
    | some b =>
        { pm with blocks := mapInsert index (b.insert_block begin data) pm.blocks }
    | none => pm
  if (mapLookup index pm1.blocks).elim false Blocks.is_complete then
    match mapLookup index pm1.blocks with
    | some b =>
        match b.into_piece with
        | .error _ => .error ()
        | .ok (some piece) =>
            .ok { blocks := mapRemove index pm1.blocks, sent := pm1.sent ++ [piece] }
        | .ok none => .ok { pm1 with blocks := mapRemove index pm1.blocks }
    | none => .ok pm1
  else .ok pm1

end PieceManager

/-! Definitions: piece length computation, from main.rs. -/

/-- The function get_piece_length from main.rs: the length of the piece at
the given index, computed from the regular piece length, the total length
of the file, and the number of pieces of the torrent. -/
def get_piece_length (index : Nat) (piece_length : Nat) (total_length : Nat)
    (num_pieces : Nat) : Nat :=
  let last_piece_length := total_length % piece_length
  let is_last_piece := index == num_pieces - 1
  if is_last_piece then last_piece_length else piece_length

/-! Definitions: peer messages and the frame codec, from net/message.rs and
peers/message.rs (the two files define the identical codec). -/

def MESSAGE_ID_CHOKE : Nat := 0
def MESSAGE_ID_UNCHOKE : Nat := 1
def MESSAGE_ID_INTERESTED : Nat := 2
def MESSAGE_ID_NOT_INTERESTED : Nat := 3
def MESSAGE_ID_HAVE : Nat := 4
def MESSAGE_ID_BITFIELD : Nat := 5
def MESSAGE_ID_REQUEST : Nat := 6
def MESSAGE_ID_PIECE : Nat := 7
def MESSAGE_ID_CANCEL : Nat := 8

/-- PeerMessage from net/message.rs.  The u32 fields become Nats; the
encoder reduces them modulo 4294967296 = 2 to the 32 exactly where the Rust
code stores a value into a u32. -/
inductive PeerMessage where
  | Choke
  | Unchoke
  | Interested
  | NotInterested
  | Have (index : Nat)
  | Bitfield (bytes : List Nat)
  | Request (index begin length : Nat)
  | Piece (index begin : Nat) (block : List Nat)
  | Cancel (index begin length : Nat)
deriving DecidableEq

/-- The Rust method u32::to_be_bytes; the argument is first reduced modulo
4294967296 as by storage in a u32, and the four constants are 2 to the 32,
2 to the 24, 2 to the 16 and 2 to the 8. -/
def u32_to_be_bytes (n : Nat) : List Nat :=
  [n % 4294967296 / 16777216 % 256, n % 4294967296 / 65536 % 256,
   n % 4294967296 / 256 % 256, n % 4294967296 % 256]

/-- The helper u32_from_bytes from net/message.rs: big-endian u32 from the
first four bytes.  Its Rust callers guarantee at least four bytes; on
shorter input the Rust code would panic, modelled by the unreachable
default 0. -/
def u32_from_bytes (bytes : List Nat) : Nat :=
  match bytes with
  | b0 :: b1 :: b2 :: b3 :: _ => ((b0 * 256 + b1) * 256 + b2) * 256 + b3
  | _ => 0

/-- PeerMessage::into_bytes: the full wire frame, a 4-byte big-endian length
prefix followed by the message id byte and the payload. -/
def PeerMessage.into_bytes : PeerMessage → List Nat
  | .Choke => u32_to_be_bytes 1 ++ [MESSAGE_ID_CHOKE]
  | .Unchoke => u32_to_be_bytes 1 ++ [MESSAGE_ID_UNCHOKE]
  | .Interested => u32_to_be_bytes 1 ++ [MESSAGE_ID_INTERESTED]
  | .NotInterested => u32_to_be_bytes 1 ++ [MESSAGE_ID_NOT_INTERESTED]
  | .Have index => u32_to_be_bytes 5 ++ [MESSAGE_ID_HAVE] ++ u32_to_be_bytes index
  | .Bitfield bitfield =>
      u32_to_be_bytes (1 + bitfield.length) ++ [MESSAGE_ID_BITFIELD] ++ bitfield
  | .Request index begin length =>
      u32_to_be_bytes 13 ++ [MESSAGE_ID_REQUEST] ++ u32_to_be_bytes index
        ++ u32_to_be_bytes begin ++ u32_to_be_bytes length
  | .Piece index begin block =>
      u32_to_be_bytes (1 + 8 + block.length) ++ [MESSAGE_ID_PIECE]
        ++ u32_to_be_bytes index ++ u32_to_be_bytes begin ++ block
  | .Cancel index begin length =>
      u32_to_be_bytes 13 ++ [MESSAGE_ID_CANCEL] ++ u32_to_be_bytes index
        ++ u32_to_be_bytes begin ++ u32_to_be_bytes length

/-- The TryFrom of PeerMessage for the byte slice after the length prefix. -/
def PeerMessage.try_from (bytes : List Nat) : Except String PeerMessage :=
  match bytes with
  | [] => .error "Message too short"
  | id :: payload =>
    if id = MESSAGE_ID_CHOKE then .ok .Choke
    else if id = MESSAGE_ID_UNCHOKE then .ok .Unchoke
    else if id = MESSAGE_ID_INTERESTED then .ok .Interested
    else if id = MESSAGE_ID_NOT_INTERESTED then .ok .NotInterested
    else if id = MESSAGE_ID_HAVE then
      if payload.length = 4 then .ok (.Have (u32_from_bytes payload))
      else .error "Invalid Have message payload length"
    else if id = MESSAGE_ID_BITFIELD then .ok (.Bitfield payload)
    else if id = MESSAGE_ID_REQUEST then
      if payload.length = 12 then
        .ok (.Request (u32_from_bytes (payload.take 4))
          (u32_from_bytes ((payload.drop 4).take 4))
          (u32_from_bytes ((payload.drop 8).take 4)))
      else .error "Invalid Request message payload length"
    else if id = MESSAGE_ID_PIECE then
      if 8 ≤ payload.length then
        .ok (.Piece (u32_from_bytes (payload.take 4))
          (u32_from_bytes ((payload.drop 4).take 4)) (payload.drop 8))
      else .error "Invalid Piece message payload length"
    else if id = MESSAGE_ID_CANCEL then
      if payload.length = 12 then
        .ok (.Cancel (u32_from_bytes (payload.take 4))
          (u32_from_bytes ((payload.drop 4).take 4))
          (u32_from_bytes ((payload.drop 8).take 4)))
      else .error "Invalid Cancel message payload length"
    else .error "Unknown message ID"

/-- Valid fields of a PeerMessage: every u32 field fits in a u32. -/
def PeerMessage.valid : PeerMessage → Bool
  | .Have index => decide (index < 4294967296)
  | .Request index begin length =>
      decide (index < 4294967296 ∧ begin < 4294967296 ∧ length < 4294967296)
  | .Piece index begin _ => decide (index < 4294967296 ∧ begin < 4294967296)
  | .Cancel index begin length =>
      decide (index < 4294967296 ∧ begin < 4294967296 ∧ length < 4294967296)
  | _ => true

/-- MessageBuf::build_if_ready from peers/message.rs: when the buffer holds
a complete frame, extract the payload after the 4-byte length prefix and
parse it; none while the frame is still partial. -/
def build_if_ready (buf : List Nat) : Option (Except String PeerMessage) :=
  if buf.length < 4 then none
  else
    let length := u32_from_bytes (buf.take 4)
    if buf.length < length + 4 then none
    else some (PeerMessage.try_from ((buf.drop 4).take length))

/-! Definitions: handshake, from net/peer.rs. -/

def HANDSHAKE_SIZE : Nat := 68

/-- Handshake::new from net/peer.rs: the 68-byte handshake frame built from
a 20-byte info hash and a 20-byte peer id.  Byte 25 carries the extension
bit 0x10 = 16. -/
def handshake_new (info_hash peer_id : List Nat) : List Nat :=
  19 :: ("BitTorrent protocol".toList.map Char.toNat)
    ++ [0, 0, 0, 0, 0, 16, 0, 0] ++ info_hash ++ peer_id

/-- Handshake::peer_id: bytes 48 to 68 of a handshake frame. -/
def handshake_peer_id (resp : List Nat) : List Nat :=
  (resp.drop 48).take 20

/-- The response handling of Peer::connect from net/peer.rs: the client
writes its own handshake, reads exactly 68 bytes and returns the peer id
field of the response.  The result pairs the bytes the client wrote with
the returned peer id; a short read is an IO error.  The source never
compares the echoed info hash (bytes 28 to 48 of the response) with the
info hash it sent. -/
def peer_connect (info_hash peer_id : List Nat) (resp : List Nat) :
    Except String (List Nat × List Nat) :=
  if resp.length < HANDSHAKE_SIZE then .error "IO Error"
  else .ok (handshake_new info_hash peer_id, handshake_peer_id resp)

/-! Definitions: the broker request path, from net/broker.rs. -/

def BLOCK_SIZE : Nat := 16 * 1024

def THROTTLE_CAPACITY : Nat := 5

/-- The while loop of Broker::send_piece_request: starting at the given
offset, emit one Request message of min(BLOCK_SIZE, remainder) bytes per
iteration until the piece length is covered.  The source builds the message
with index as u32, offset as u32 and block_size as u32: each usize field is
wrapping-truncated modulo 4294967296 when stored into the u32 field. -/
def send_piece_request_loop (index piece_length offset : Nat) :
    List PeerMessage :=
  if _h : offset < piece_length then
    let block_size := min BLOCK_SIZE (piece_length - offset)
    PeerMessage.Request (index % 4294967296) (offset % 4294967296)
        (block_size % 4294967296)
      :: send_piece_request_loop index piece_length (offset + block_size)
  else []
termination_by piece_length - offset
decreasing_by
  simp_wf
  have hmin : 0 < min BLOCK_SIZE (piece_length - offset) :=
    lt_min (by norm_num [BLOCK_SIZE]) (by omega)
  have hle : min BLOCK_SIZE (piece_length - offset) ≤ piece_length - offset :=
    min_le_right _ _
  omega

/-- Broker::send_piece_request. -/
def send_piece_request (index piece_length : Nat) : List PeerMessage :=
  send_piece_request_loop index piece_length 0

/-- Broker::request_piece: open an accumulator in the piece manager, then
enqueue the block requests for the piece. -/
def request_piece (pm : PieceManager) (index piece_length : Nat) :
    PieceManager × List PeerMessage :=
  (pm.new_block index piece_length, send_piece_request index piece_length)

/-! Definitions: SHA-1, modelling the sha1 crate digest (Sha1::digest) used
by the hashing paths of the client. -/

/-- Left rotation of a 32-bit word. -/
def rotl32 (s w : Nat) : Nat :=
  (w * 2 ^ s + w / 2 ^ (32 - s)) % 4294967296

/-- Big-endian 32-bit words from a byte list. -/
def be32_words : List Nat → List Nat
  | b0 :: b1 :: b2 :: b3 :: rest =>
      (((b0 * 256 + b1) * 256 + b2) * 256 + b3) :: be32_words rest
  | _ => []

/-- Big-endian 8-byte encoding of a 64-bit value; the divisors are 2 to the
56, 48, 40, 32, 24, 16 and 8. -/
def be64_bytes (n : Nat) : List Nat :=
  [n / 72057594037927936 % 256, n / 281474976710656 % 256,
   n / 1099511627776 % 256, n / 4294967296 % 256,
   n / 16777216 % 256, n / 65536 % 256, n / 256 % 256, n % 256]

/-- SHA-1 message-schedule extension: appends one derived word per fuel
step. -/
def sha1_extend : Nat → List Nat → List Nat
  | 0, ws => ws
  | fuel + 1, ws =>
      let n := ws.length
      sha1_extend fuel (ws ++ [rotl32 1 ((ws.getD (n - 3) 0 ^^^ ws.getD (n - 8) 0)
        ^^^ (ws.getD (n - 14) 0 ^^^ ws.getD (n - 16) 0))])

/-- SHA-1 round function; 4294967295 - b is the 32-bit complement of b. -/
def sha1_f (i b c d : Nat) : Nat :=
  if i < 20 then (b &&& c) ||| ((4294967295 - b) &&& d)
  else if i < 40 then (b ^^^ c) ^^^ d
  else if i < 60 then ((b &&& c) ||| (b &&& d)) ||| (c &&& d)
  else (b ^^^ c) ^^^ d

/-- SHA-1 round constants. -/
def sha1_k (i : Nat) : Nat :=
  if i < 20 then 0x5A827999
  else if i < 40 then 0x6ED9EBA1
  else if i < 60 then 0x8F1BBCDC
  else 0xCA62C1D6

/-- One SHA-1 round on the five-word state. -/
def sha1_round : Nat × Nat × Nat × Nat × Nat → Nat × Nat → Nat × Nat × Nat × Nat × Nat
  | (a, b, c, d, e), (i, w) =>
      ((rotl32 5 a + sha1_f i b c d + e + sha1_k i + w) % 4294967296,
       a, rotl32 30 b, c, d)

/-- SHA-1 compression of one 64-byte chunk. -/
def sha1_compress (h : Nat × Nat × Nat × Nat × Nat) (chunk : List Nat) :
    Nat × Nat × Nat × Nat × Nat :=
  match h with
  | (h0, h1, h2, h3, h4) =>
      let ws := sha1_extend 64 (be32_words chunk)
      match ws.enum.foldl sha1_round (h0, h1, h2, h3, h4) with
      | (a, b, c, d, e) =>
          ((h0 + a) % 4294967296, (h1 + b) % 4294967296, (h2 + c) % 4294967296,
           (h3 + d) % 4294967296, (h4 + e) % 4294967296)

/-- Split a byte list into 64-byte chunks (fuel-based for kernel
reducibility). -/
def sha1_chunks_aux : Nat → List Nat → List (List Nat)
  | 0, _ => []
  | fuel + 1, l =>
      if l = [] then [] else l.take 64 :: sha1_chunks_aux fuel (l.drop 64)

def sha1_chunks (l : List Nat) : List (List Nat) :=
  sha1_chunks_aux l.length l

/-- SHA-1 padding: a 0x80 = 128 byte, zeros to 56 mod 64, and the bit length
as 8 big-endian bytes. -/
def sha1_pad (msg : List Nat) : List Nat :=
  msg ++ 128 :: List.replicate ((119 - msg.length % 64) % 64) 0
    ++ be64_bytes (msg.length * 8)

/-- SHA-1 digest of a byte list: 20 bytes. -/
def sha1 (msg : List Nat) : List Nat :=
  match (sha1_chunks (sha1_pad msg)).foldl sha1_compress
      (0x67452301, 0xEFCDAB89, 0x98BADCFE, 0x10325476, 0xC3D2E1F0) with
  | (h0, h1, h2, h3, h4) =>
      u32_to_be_bytes h0 ++ u32_to_be_bytes h1 ++ u32_to_be_bytes h2
        ++ u32_to_be_bytes h3 ++ u32_to_be_bytes h4

/-! Definitions: bencode deserialization of the Info dictionary, from
bencode/de/deserializer.rs, bencode/de/visitors.rs and meta/file.rs. -/

/-- Bytes of a string literal. -/
def strBytes (s : String) : List Nat := s.toList.map Char.toNat

/-- read_until from bencode/de/deserializer.rs: reads up to and including
the delimiter byte, or to the end of input; returns the bytes read and the
remainder. -/
def read_until (b : Nat) : List Nat → List Nat × List Nat
  | [] => ([], [])
  | x :: rest =>
      if x = b then ([x], rest)
      else
        let r := read_until b rest
        (x :: r.1, r.2)

/-- Unsigned decimal digit string parse, as used by the u32 and u64 parses
of the Info fields; a non-digit byte fails. -/
def parse_digits_aux : List Nat → Nat → Option Nat
  | [], acc => some acc
  | c :: rest, acc =>
      if 48 ≤ c ∧ c ≤ 57 then parse_digits_aux rest (acc * 10 + (c - 48))
      else none

def parse_digits (s : List Nat) : Option Nat :=
  if s = [] then none else parse_digits_aux s 0

/-- has_leading_zeros from bencode/de/deserializer.rs (45 is the minus sign,
48 the zero digit). -/
def has_leading_zeros (s : List Nat) : Bool :=
  if s.headD 0 = 45 then decide (2 < s.length) && decide (s.getD 1 0 = 48)
  else decide (1 < s.length) && decide (s.getD 0 0 = 48)

/-- num_str from bencode/de/deserializer.rs: expects the integer start i
(byte 105), reads until e (byte 101), and validates the digit string:
nonempty, not minus zero, no leading zeros.  Returns the digit string and
the remaining input. -/
def num_str (input : List Nat) : Except String (List Nat × List Nat) :=
  match input with
  | 105 :: rest =>
      let r := read_until 101 rest
      if r.1 = [] then .error "Unexpected EOF"
      else
        let num_bytes := r.1.dropLast
        if num_bytes = [] then .error "Invalid integer format"
        else if num_bytes = [45, 48] then .error "Invalid integer format"
        else if has_leading_zeros num_bytes then .error "Invalid integer format"
        else .ok (num_bytes, r.2)
  | _ => .error "Expected integer start i"

/-- str_or_bytes from bencode/de/deserializer.rs: a decimal length, a colon
(byte 58), then exactly that many bytes. -/
def str_or_bytes (input : List Nat) : Except String (List Nat × List Nat) :=
  match input with
  | c :: _ =>
      if 48 ≤ c ∧ c ≤ 57 then
        let r := read_until 58 input
        match parse_digits r.1.dropLast with
        | some len =>
            if len ≤ r.2.length then .ok (r.2.take len, r.2.drop len)
            else .error "Unexpected EOF"
        | none => .error "Parse Int Error"
      else .error "Expected string/bytes length"
  | [] => .error "Unexpected EOF"

mutual

/-- The value skip of deserialize_any on an ignored field (serde
IgnoredAny): integers, strings, lists (byte 108) and dicts (byte 100) are
consumed; 101 closes a list or dict.  Fuel-based recursion. -/
def bencode_skip : Nat → List Nat → Except String (List Nat)
  | 0, _ => .error "Recursion limit"
  | fuel + 1, input =>
      match input with
      | [] => .error "Unexpected EOF"
      | c :: rest =>
          if c = 105 then
            match num_str input with
            | .ok r => .ok r.2
            | .error e => .error e
          else if 48 ≤ c ∧ c ≤ 57 then
            match str_or_bytes input with
            | .ok r => .ok r.2
            | .error e => .error e
          else if c = 108 ∨ c = 100 then bencode_skip_seq fuel rest
          else .error "Invalid bencode data format"

def bencode_skip_seq : Nat → List Nat → Except String (List Nat)
  | 0, _ => .error "Recursion limit"
  | fuel + 1, input =>
      match input with
      | [] => .error "Unexpected EOF"
      | 101 :: rest => .ok rest
      | _ =>
          match bencode_skip fuel input with
          | .ok rem => bencode_skip_seq fuel rem
          | .error e => .error e

end

/-- Split a byte list into the 20-byte units of ByteSeqVisitor from
bencode/de/visitors.rs (fuel-based). -/
def chunks20_aux : Nat → List Nat → List (List Nat)
  | 0, _ => []
  | fuel + 1, l =>
      if l = [] then [] else l.take 20 :: chunks20_aux fuel (l.drop 20)

def chunks20 (l : List Nat) : List (List Nat) :=
  chunks20_aux l.length l

/-- Info from meta/file.rs: the piece length, the list of 20-byte piece
hashes, the name and the total length.  The name is kept as raw bytes; the
UTF-8 validation of deserialize_string is not modelled. -/
structure Info where
  piece_length : Nat
  pieces : List (List Nat)
  name : List Nat
  length : Nat
deriving DecidableEq

/-- The field loop of the derived Deserialize of Info over the MapAccess of
the bencode Deserializer: keys are read as strings and dispatched by name;
piece length parses as u32 (bound 2 to the 32), length as u64 (bound 2 to
the 64), pieces through ByteSeqVisitor with unit length 20, unknown keys
are skipped; 101 closes the dict and every field must then be present. -/
def info_fields_loop : Nat → List Nat → Option Nat → Option (List (List Nat)) →
    Option (List Nat) → Option Nat → Except String (Info × List Nat)
  | 0, _, _, _, _, _ => .error "Recursion limit"
  | fuel + 1, input, pl, pcs, nm, ln =>
      match input with
      | [] => .error "Unexpected EOF"
      | 101 :: rest =>
          match pl, pcs, nm, ln with
          | some pl, some pcs, some nm, some ln =>
              .ok ({ piece_length := pl, pieces := pcs, name := nm, length := ln },
                rest)
          | _, _, _, _ => .error "Missing field"
      | _ =>
          match str_or_bytes input with
          | .error e => .error e
          | .ok (key, rem) =>
              if key = strBytes "piece length" then
                match num_str rem with
                | .error e => .error e
                | .ok (digits, rem2) =>
                    match parse_digits digits with
                    | some v =>
                        if v < 4294967296 then
                          info_fields_loop fuel rem2 (some v) pcs nm ln
                        else .error "Parse Int Error"
                    | none => .error "Parse Int Error"
              else if key = strBytes "pieces" then
                match str_or_bytes rem with
                | .error e => .error e
                | .ok (bytes, rem2) =>
                    if bytes.length % 20 = 0 then
                      info_fields_loop fuel rem2 pl (some (chunks20 bytes)) nm ln
                    else .error "byte sequence length is not a multiple of unit length"
              else if key = strBytes "name" then
                match str_or_bytes rem with
                | .error e => .error e
                | .ok (bytes, rem2) => info_fields_loop fuel rem2 pl pcs (some bytes) ln
              else if key = strBytes "length" then
                match num_str rem with
                | .error e => .error e
                | .ok (digits, rem2) =>
                    match parse_digits digits with
                    | some v =>
                        if v < 18446744073709551616 then
                          info_fields_loop fuel rem2 pl pcs nm (some v)
                        else .error "Parse Int Error"
                    | none => .error "Parse Int Error"
              else
                match bencode_skip fuel rem with
                | .ok rem2 => info_fields_loop fuel rem2 pl pcs nm ln
                | .error e => .error e

/-- Info::deserialize: deserialize_struct goes through deserialize_map,
which expects the dict start d (byte 100) and then runs the field loop. -/
def Info.deserialize (input : List Nat) : Except String (Info × List Nat) :=
  match input with
  | 100 :: rest => info_fields_loop input.length rest none none none none
  | _ => .error "Expected dict start d"

set_option linter.unusedVariables false in
/-- The metadata acceptance step of get_ext_info from cmd/utils.rs (the same
pattern appears in cmd/magnet_download_piece.rs): on an Extension::Metadata
message the payload is deserialized into Info and returned as-is.  The
magnet info hash is passed in but never consulted: no SHA-1 of the
concatenated metadata is computed and no comparison with the info hash
occurs anywhere on this path. -/
def get_ext_info_on_metadata (data : List Nat) (info_hash : List Nat) :
    Except String Info :=
  match Info.deserialize data with
  | .ok (info, _) => .ok info
  | .error e => .error e

/-- A concrete bencoded info dictionary used as a metadata vector: length 1,
name a, piece length 16384, one piece hash of twenty 65 bytes. -/
def sampleMetadata : List Nat :=
  strBytes "d6:lengthi1e4:name1:a12:piece lengthi16384e6:pieces20:"
    ++ List.replicate 20 65 ++ [101]

/-- The Info value encoded by sampleMetadata. -/
def sampleInfo : Info :=
  { piece_length := 16384, pieces := [List.replicate 20 65],
    name := [97], length := 1 }

/-! Theorems. -/

set_option maxRecDepth 10000 in
/-- Validation of the SHA-1 embedding on the standard test vector abc. -/
theorem sha1_abc :
    sha1 [97, 98, 99] = [0xa9, 0x99, 0x3e, 0x36, 0x47, 0x06, 0x81, 0x6a,
      0xba, 0x3e, 0x25, 0x71, 0x78, 0x50, 0xc2, 0x6c, 0x9c, 0xd0, 0xd8, 0x9d] := by
  decide

theorem insertKey_length_le (k : Key) (l : List Key) :
    (insertKey k l).length ≤ l.length + 1 := by
  unfold insertKey
  split
  · exact Nat.le_succ _
  · simp

theorem throttle_queue_capacity_eq {T : Type} (keyHash : T → Key)
    (q : ThrottleQueue T) (item : T) :
    (q.queue keyHash item).capacity = q.capacity := by
  unfold ThrottleQueue.queue ThrottleQueue.push ThrottleQueue.push_waiting
  split <;> rfl

theorem throttle_done_capacity_eq {T : Type} (keyHash : T → Key)
    (q : ThrottleQueue T) (h : Key) :
    (q.done keyHash h).capacity = q.capacity := by
  unfold ThrottleQueue.done ThrottleQueue.push
  split
  · cases q.waitings <;> rfl
  · rfl

theorem throttle_queue_preserves_bound {T : Type} (keyHash : T → Key)
    (q : ThrottleQueue T) (item : T)
    (hq : q.processings.length ≤ q.capacity) :
    (q.queue keyHash item).processings.length ≤ (q.queue keyHash item).capacity := by
  rw [throttle_queue_capacity_eq]
  unfold ThrottleQueue.queue
  split
  · simpa [ThrottleQueue.push_waiting] using hq
  · rename_i hfull
    unfold ThrottleQueue.is_full at hfull
    simp only [decide_eq_true_eq, Bool.not_eq_true] at hfull
    have hlt : q.processings.length < q.capacity := by
      by_contra hc
      exact hfull (by simpa [ThrottleQueue.is_full] using Nat.le_of_not_lt hc)
    calc (q.push keyHash item).processings.length
        ≤ q.processings.length + 1 := insertKey_length_le _ _
      _ ≤ q.capacity := hlt

theorem throttle_done_preserves_bound {T : Type} (keyHash : T → Key)
    (q : ThrottleQueue T) (h : Key)
    (hq : q.processings.length ≤ q.capacity) :
    (q.done keyHash h).processings.length ≤ (q.done keyHash h).capacity := by
  rw [throttle_done_capacity_eq]
  unfold ThrottleQueue.done
  split
  · rename_i hmem
    have herase : (q.processings.erase h).length = q.processings.length - 1 :=
      List.length_erase_of_mem hmem
    have hpos : 0 < q.processings.length :=
      List.length_pos.mpr (List.ne_nil_of_mem hmem)
    cases hw : q.waitings with
    | nil =>
      simpa [herase] using Nat.le_trans (Nat.sub_le _ _) hq
    | cons item rest =>
      simp only [ThrottleQueue.push]
      calc (insertKey (keyHash item) (q.processings.erase h)).length
          ≤ (q.processings.erase h).length + 1 := insertKey_length_le _ _
        _ = q.processings.length - 1 + 1 := by rw [herase]
        _ = q.processings.length := Nat.succ_pred_eq_of_pos hpos
        _ ≤ q.capacity := hq
  · simpa using hq

theorem runThrottle_preserves_bound {T : Type} (keyHash : T → Key)
    (ops : List (ThrottleOp T)) (q : ThrottleQueue T)
    (hq : q.processings.length ≤ q.capacity) :
    (runThrottle keyHash q ops).processings.length
      ≤ (runThrottle keyHash q ops).capacity := by
  induction ops generalizing q with
  | nil => simpa [runThrottle] using hq
  | cons op ops ih =>
    cases op with
    | queue item =>
      exact ih _ (throttle_queue_preserves_bound keyHash q item hq)
    | done h =>
      exact ih _ (throttle_done_preserves_bound keyHash q h hq)

theorem runThrottle_capacity_eq {T : Type} (keyHash : T → Key)
    (ops : List (ThrottleOp T)) (q : ThrottleQueue T) :
    (runThrottle keyHash q ops).capacity = q.capacity := by
  induction ops generalizing q with
  | nil => rfl
  | cons op ops ih =>
    cases op with
    | queue item => rw [runThrottle, ih, throttle_queue_capacity_eq]
    | done h => rw [runThrottle, ih, throttle_done_capacity_eq]

/-- C1: Throttle capacity bound: on a queue constructed with capacity 5, after
any sequence of queue and done operations the in-flight set holds at most 5
keys; moreover queue, when the in-flight set is strictly below capacity,
marks the key of the item as in-flight and hands the item to the sender, and
otherwise appends the item to the waiting FIFO without sending it. -/
theorem throttle_capacity_bound {T : Type} (keyHash : T → Key)
    (ops : List (ThrottleOp T)) (q : ThrottleQueue T) (item : T) :
    (runThrottle keyHash (ThrottleQueue.new T 5) ops).processings.length ≤ 5
    ∧ (q.processings.length < q.capacity →
        (q.queue keyHash item).processings = insertKey (keyHash item) q.processings
        ∧ (q.queue keyHash item).sent = q.sent ++ [item]
        ∧ (q.queue keyHash item).waitings = q.waitings)
    ∧ (q.capacity ≤ q.processings.length →
        (q.queue keyHash item).waitings = q.waitings ++ [item]
        ∧ (q.queue keyHash item).sent = q.sent
        ∧ (q.queue keyHash item).processings = q.processings) := by
  refine ⟨?_, ?_, ?_⟩
  · have h := runThrottle_preserves_bound keyHash ops (ThrottleQueue.new T 5)
      (by simp [ThrottleQueue.new])
    rwa [runThrottle_capacity_eq keyHash ops (ThrottleQueue.new T 5)] at h
  · intro hlt
    have hnotfull : q.is_full = false := by
      simp [ThrottleQueue.is_full, Nat.not_le_of_lt hlt]
    simp [ThrottleQueue.queue, hnotfull, ThrottleQueue.push]
  · intro hle
    have hfull : q.is_full = true := by
      simp [ThrottleQueue.is_full, hle]
    simp [ThrottleQueue.queue, hfull, ThrottleQueue.push_waiting]

/-- C1 witness: the capacity bound and both queue behaviours evaluated at
concrete inputs. -/
theorem throttle_capacity_bound_witness :
    (runThrottle id (ThrottleQueue.new Key 5)
        [ThrottleOp.queue [1], ThrottleOp.queue [2],
         ThrottleOp.done [1]]).processings.length ≤ 5
    ∧ ((⟨[], [[1]], 5, []⟩ : ThrottleQueue Key).queue id [2]).processings
        = insertKey [2] [[1]]
    ∧ ((⟨[], [[1]], 1, []⟩ : ThrottleQueue Key).queue id [2]).waitings = [[2]] := by
  refine ⟨(throttle_capacity_bound id _ (ThrottleQueue.new Key 5) [1]).1, ?_, ?_⟩
  · exact ((throttle_capacity_bound id [] (⟨[], [[1]], 5, []⟩ : ThrottleQueue Key)
      [2]).2.1 (by decide)).1
  · exact (((throttle_capacity_bound id [] (⟨[], [[1]], 1, []⟩ : ThrottleQueue Key)
      [2]).2.2) (by decide)).1

/-- C2: evaluation of ThrottleQueue::done at a key that is not in-flight, on
the state whose waiting FIFO holds an item with key 1 and then an item with
key 2 and whose in-flight set is empty.  Acknowledging key 2 retains only the
waiting item whose key equals 2 and drops the item with key 1, the opposite
of dropping the duplicates of key 2 and keeping the rest. -/
theorem throttle_done_unknown_key_eval :
    ((⟨[[1], [2]], [], 5, []⟩ : ThrottleQueue Key).done id [2]).waitings = [[2]]
    ∧ ((⟨[[1], [2]], [], 5, []⟩ : ThrottleQueue Key).done id [2]).processings = []
    ∧ ([[2]] : List Key) ≠ [[1]] := by
  refine ⟨?_, ?_, by decide⟩ <;> rfl

/-- C3 counterexample: delivering a block for index 0 to a reassembler with
no open accumulator returns Ok with the state unchanged, rather than failing
with an OrphanBlock error. -/
theorem orphan_block_accepted_counterexample :
    PieceManager.insert_block { blocks := [], sent := [] } 0 0 [1]
      = .ok { blocks := [], sent := [] } := rfl

/-- C3 amended: for every index with no open accumulator, insert_block
silently ignores the block: it returns Ok and leaves the reassembler state
unchanged; no OrphanBlock error exists in the code. -/
theorem orphan_block_ignored (pm : PieceManager) (index begin : Nat)
    (data : List Nat) (h : mapLookup index pm.blocks = none) :
    pm.insert_block index begin data = .ok pm := by
  unfold PieceManager.insert_block
  simp [h]

/-- C3 witness: the amended claim evaluated on a reassembler with no open
accumulator for index 3. -/
theorem orphan_block_ignored_witness :
    mapLookup 3 (PieceManager.new).blocks = none
    ∧ PieceManager.insert_block PieceManager.new 3 0 [7, 7] = .ok PieceManager.new :=
  ⟨rfl, orphan_block_ignored PieceManager.new 3 0 [7, 7] rfl⟩

theorem writeBlock_length {data block : List Nat} {begin : Nat}
    (h : begin + block.length ≤ data.length) :
    writeBlock data begin block
      = some (data.take begin ++ block ++ data.drop (begin + block.length))
    ∧ (data.take begin ++ block ++ data.drop (begin + block.length)).length
        = data.length := by
  have hb : begin ≤ data.length := le_trans (Nat.le_add_right _ _) h
  constructor
  · simp [writeBlock, h]
  · simp only [List.length_append, List.length_take, List.length_drop,
      Nat.min_eq_left hb]
    omega

theorem writeAll_some : ∀ (l : List (Nat × List Nat)) (data : List Nat),
    (∀ p ∈ l, p.1 + p.2.length ≤ data.length) →
    ∃ d, writeAll data l = some d ∧ d.length = data.length := by
  intro l
  induction l with
  | nil => exact fun data _ => ⟨data, rfl, rfl⟩
  | cons p rest ih =>
    intro data h
    obtain ⟨k, block⟩ := p
    have hk : k + block.length ≤ data.length := h _ (List.mem_cons_self _ _)
    obtain ⟨heq, hlen⟩ := writeBlock_length hk
    obtain ⟨d, hd, hdl⟩ := ih (data.take k ++ block ++ data.drop (k + block.length))
      (fun p hp => by rw [hlen]; exact h p (List.mem_cons_of_mem _ hp))
    refine ⟨d, ?_, by rw [hdl, hlen]⟩
    simp only [writeAll, heq]
    exact hd

theorem blocks_into_piece_cases (b : Blocks)
    (h : ∀ p ∈ b.blocks, p.1 + p.2.length ≤ b.length) :
    (b.is_complete = true → ∃ piece, b.into_piece = .ok (some piece))
    ∧ ∃ r, b.into_piece = .ok r := by
  have hall : ∀ p ∈ b.blocks, p.1 + p.2.length ≤ (List.replicate b.length 0).length := by
    simpa using h
  obtain ⟨d, hd, _⟩ := writeAll_some b.blocks (List.replicate b.length 0) hall
  by_cases hc : b.is_complete = true
  · refine ⟨fun _ => ⟨{ index := b.index, data := d }, ?_⟩, ?_⟩
    · simp [Blocks.into_piece, hc, hd]
    · exact ⟨some { index := b.index, data := d }, by simp [Blocks.into_piece, hc, hd]⟩
  · refine ⟨fun hcontra => absurd hcontra hc, ⟨none, ?_⟩⟩
    simp [Blocks.into_piece, hc]

/-- C10: reassembly indexing safety: insert_block stores the block with no
bounds check; when every held block fits inside the declared piece length
the write loop of into_piece stays in bounds and into_piece is total (and a
complete accumulator yields a piece), whereas the complete accumulator of
length 2 holding the two-byte block at offset 5 drives the write out of
bounds, a panic rather than a returned error. -/
theorem reassembly_indexing_safety :
    (∀ (b : Blocks) (begin : Nat) (data : List Nat),
        (b.insert_block begin data).blocks = mapInsert begin data b.blocks)
    ∧ (∀ b : Blocks, (∀ p ∈ b.blocks, p.1 + p.2.length ≤ b.length) →
        ∃ r, b.into_piece = .ok r)
    ∧ (∀ b : Blocks, (∀ p ∈ b.blocks, p.1 + p.2.length ≤ b.length) →
        b.is_complete = true → ∃ piece, b.into_piece = .ok (some piece))
    ∧ (⟨0, 2, [(5, [9, 9])]⟩ : Blocks).is_complete = true
    ∧ (⟨0, 2, [(5, [9, 9])]⟩ : Blocks).into_piece = .error () := by
  refine ⟨fun b begin data => rfl, ?_, ?_, rfl, rfl⟩
  · exact fun b h => (blocks_into_piece_cases b h).2
  · exact fun b h hc => (blocks_into_piece_cases b h).1 hc

/-- C10 witness: the in-bounds clauses evaluated on a complete two-block
accumulator of length 3. -/
theorem reassembly_indexing_safety_witness :
    (∃ r, (⟨1, 3, [(0, [4, 5]), (2, [6])]⟩ : Blocks).into_piece = .ok r)
    ∧ ∃ piece, (⟨1, 3, [(0, [4, 5]), (2, [6])]⟩ : Blocks).into_piece
        = .ok (some piece) :=
  ⟨reassembly_indexing_safety.2.1 ⟨1, 3, [(0, [4, 5]), (2, [6])]⟩ (by decide),
   reassembly_indexing_safety.2.2.1 ⟨1, 3, [(0, [4, 5]), (2, [6])]⟩
     (by decide) (by decide)⟩

/-- C9: evaluation of get_piece_length on a torrent whose total length is an
exact multiple of the piece length: two pieces, regular piece length 16384,
total length 32768.  For the last index the code computes 32768 mod 16384,
which is 0, while the last-piece formula of the specification,
total length minus regular length times (n - 1), gives 16384. -/
theorem get_piece_length_exact_multiple_eval :
    get_piece_length 1 16384 32768 2 = 0
    ∧ get_piece_length 0 16384 32768 2 = 16384
    ∧ 32768 - 16384 * (2 - 1) = 16384 := by
  refine ⟨rfl, rfl, by norm_num⟩

theorem mapLookup_mapInsert {A : Type} (k : Nat) (v : A) (l : List (Nat × A)) :
    mapLookup k (mapInsert k v l) = some v := by
  induction l with
  | nil => simp [mapInsert, mapLookup]
  | cons p rest ih =>
    obtain ⟨k0, v0⟩ := p
    by_cases h : k0 = k <;> simp [mapInsert, mapLookup, h, ih]

theorem send_piece_request_loop_eq (fuel : Nat) :
    ∀ (index piece_length offset : Nat), piece_length - offset ≤ fuel →
    send_piece_request_loop index piece_length offset
      = (List.range ((piece_length - offset + BLOCK_SIZE - 1) / BLOCK_SIZE)).map
          (fun k => PeerMessage.Request (index % 4294967296)
            ((offset + k * BLOCK_SIZE) % 4294967296)
            (min BLOCK_SIZE (piece_length - offset - k * BLOCK_SIZE)
              % 4294967296)) := by
  induction fuel with
  | zero =>
    intro index pl off hle
    have h0 : pl - off = 0 := Nat.le_zero.mp hle
    rw [send_piece_request_loop]
    rw [dif_neg (by omega)]
    have hn : (pl - off + BLOCK_SIZE - 1) / BLOCK_SIZE = 0 := by
      simp only [BLOCK_SIZE]
      omega
    rw [hn]
    rfl
  | succ fuel ih =>
    intro index pl off hle
    by_cases h : off < pl
    · rw [send_piece_request_loop]
      rw [dif_pos h]
      have hbs : 0 < min BLOCK_SIZE (pl - off) :=
        lt_min (by norm_num [BLOCK_SIZE]) (by omega)
      have hbs2 : min BLOCK_SIZE (pl - off) ≤ pl - off := min_le_right _ _
      show PeerMessage.Request (index % 4294967296) (off % 4294967296)
            (min BLOCK_SIZE (pl - off) % 4294967296)
          :: send_piece_request_loop index pl (off + min BLOCK_SIZE (pl - off)) = _
      rw [ih index pl (off + min BLOCK_SIZE (pl - off)) (by omega)]
      by_cases hsmall : pl - off ≤ BLOCK_SIZE
      · have hmin : min BLOCK_SIZE (pl - off) = pl - off := min_eq_right hsmall
        have hres : pl - (off + min BLOCK_SIZE (pl - off)) = 0 := by omega
        have hn0 : (pl - (off + min BLOCK_SIZE (pl - off)) + BLOCK_SIZE - 1)
            / BLOCK_SIZE = 0 := by
          rw [hres]
          simp [BLOCK_SIZE]
        have hn1 : (pl - off + BLOCK_SIZE - 1) / BLOCK_SIZE = 1 := by
          simp only [BLOCK_SIZE] at hsmall ⊢
          omega
        rw [hn0, hn1]
        have hr1 : List.range 1 = [0] := rfl
        rw [hr1]
        simp only [List.map_cons, List.map_nil, Nat.zero_mul, Nat.add_zero,
          Nat.sub_zero, List.range_zero]
      · have hmin : min BLOCK_SIZE (pl - off) = BLOCK_SIZE :=
          min_eq_left (by omega)
        have hres : pl - (off + min BLOCK_SIZE (pl - off)) = pl - off - BLOCK_SIZE := by
          omega
        have hn : (pl - off + BLOCK_SIZE - 1) / BLOCK_SIZE
            = (pl - off - BLOCK_SIZE + BLOCK_SIZE - 1) / BLOCK_SIZE + 1 := by
          simp only [BLOCK_SIZE] at hsmall ⊢
          omega
        rw [hres, hn, List.range_succ_eq_map, List.map_cons, List.map_map]
        congr 1
        · apply List.map_congr_left
          intro k _
          simp only [Function.comp_apply, hmin]
          have h1 : off + BLOCK_SIZE + k * BLOCK_SIZE
              = off + Nat.succ k * BLOCK_SIZE := by
            simp only [Nat.succ_mul]
            omega
          have h2 : pl - off - BLOCK_SIZE - k * BLOCK_SIZE
              = pl - off - Nat.succ k * BLOCK_SIZE := by
            simp only [Nat.succ_mul]
            omega
          rw [h1, h2]
    · rw [send_piece_request_loop]
      rw [dif_neg h]
      have hn : (pl - off + BLOCK_SIZE - 1) / BLOCK_SIZE = 0 := by
        simp only [BLOCK_SIZE]
        omega
      rw [hn]
      rfl

theorem send_piece_request_eq (index piece_length : Nat) :
    send_piece_request index piece_length
      = (List.range ((piece_length + BLOCK_SIZE - 1) / BLOCK_SIZE)).map
          (fun k => PeerMessage.Request (index % 4294967296)
            (k * BLOCK_SIZE % 4294967296)
            (min BLOCK_SIZE (piece_length - k * BLOCK_SIZE) % 4294967296)) := by
  have h := send_piece_request_loop_eq piece_length index piece_length 0
    (by omega)
  simpa [send_piece_request] using h

/-- C4 counterexample: for piece_length 4294983680, which is 2 to the 32
plus 16384, the Request at position 262144 carries begin
(262144 * 16384) mod 2 to the 32 = 0, not the claimed offset
262144 * 16384: the u32 cast wraps the begin field, so the begin offsets of
the enqueued requests are not 0, 16384, 2 * 16384 and so on in increasing
order (positions 0 and 262144 both carry begin 0). -/
theorem request_piece_begin_wraps_counterexample :
    ((request_piece PieceManager.new 0 4294983680).2)[0]?
        = some (PeerMessage.Request 0 0 16384)
    ∧ ((request_piece PieceManager.new 0 4294983680).2)[262144]?
        = some (PeerMessage.Request 0 0 16384)
    ∧ (262144 * 16384 : Nat) ≠ 0 := by
  have he : (request_piece PieceManager.new 0 4294983680).2
      = send_piece_request 0 4294983680 := rfl
  have hn : (4294983680 + BLOCK_SIZE - 1) / BLOCK_SIZE = 262145 := by
    norm_num [BLOCK_SIZE]
  refine ⟨?_, ?_, by norm_num⟩
  · rw [he, send_piece_request_eq, List.getElem?_map, hn,
      List.getElem?_range (by norm_num)]
    norm_num [BLOCK_SIZE]
  · rw [he, send_piece_request_eq, List.getElem?_map, hn,
      List.getElem?_range (by norm_num)]
    norm_num [BLOCK_SIZE]

/-- C4 amended: for piece lengths in u32 range the wrapping casts are the
identity: request_piece opens an accumulator for the index and enqueues
exactly the ceiling of piece_length / 16384 Request messages, with begin
offsets 0, 16384, 2 times 16384 and so on in increasing order, each of
length 16384 except the last, whose length is
piece_length - 16384 * (count - 1); the index field carries the piece index
reduced modulo 2 to the 32. -/
theorem request_piece_block_splitting (pm : PieceManager)
    (index piece_length : Nat) (h : 1 ≤ piece_length)
    (hu : piece_length ≤ 4294967296) :
    mapLookup index (request_piece pm index piece_length).1.blocks
      = some (Blocks.new index piece_length)
    ∧ (request_piece pm index piece_length).2
      = (List.range ((piece_length + BLOCK_SIZE - 1) / BLOCK_SIZE)).map
          (fun k => PeerMessage.Request (index % 4294967296) (k * BLOCK_SIZE)
            (if k + 1 = (piece_length + BLOCK_SIZE - 1) / BLOCK_SIZE
             then piece_length
               - BLOCK_SIZE * ((piece_length + BLOCK_SIZE - 1) / BLOCK_SIZE - 1)
             else BLOCK_SIZE)) := by
  constructor
  · exact mapLookup_mapInsert index _ pm.blocks
  · show send_piece_request index piece_length = _
    rw [send_piece_request_eq]
    apply List.map_congr_left
    intro k hk
    rw [List.mem_range] at hk
    have hb : k * BLOCK_SIZE % 4294967296 = k * BLOCK_SIZE := by
      simp only [BLOCK_SIZE] at hk ⊢
      omega
    have hl : min BLOCK_SIZE (piece_length - k * BLOCK_SIZE) % 4294967296
        = (if k + 1 = (piece_length + BLOCK_SIZE - 1) / BLOCK_SIZE
           then piece_length
             - BLOCK_SIZE * ((piece_length + BLOCK_SIZE - 1) / BLOCK_SIZE - 1)
           else BLOCK_SIZE) := by
      rw [Nat.min_def]
      split <;> split <;> simp only [BLOCK_SIZE] at * <;> omega
    rw [hb, hl]

/-- C4 witness: block splitting evaluated on a piece of 40000 bytes: three
requests of lengths 16384, 16384 and 7232 at offsets 0, 16384 and 32768,
and the accumulator opened for index 1. -/
theorem request_piece_block_splitting_witness :
    mapLookup 1 (request_piece PieceManager.new 1 40000).1.blocks
      = some (Blocks.new 1 40000)
    ∧ (request_piece PieceManager.new 1 40000).2
      = [PeerMessage.Request 1 0 16384, PeerMessage.Request 1 16384 16384,
         PeerMessage.Request 1 32768 7232] := by
  obtain ⟨h1, h2⟩ := request_piece_block_splitting PieceManager.new 1 40000
    (by omega) (by omega)
  refine ⟨h1, ?_⟩
  rw [h2]
  rfl

theorem u32_from_to_be_bytes (n : Nat) (h : n < 4294967296) (rest : List Nat) :
    u32_from_bytes (u32_to_be_bytes n ++ rest) = n := by
  simp only [u32_to_be_bytes, u32_from_bytes, List.cons_append, Nat.mod_eq_of_lt h]
  omega

theorem peer_message_decode_encode (m : PeerMessage) (h : m.valid = true) :
    PeerMessage.try_from (m.into_bytes.drop 4) = .ok m := by
  cases m with
  | Choke => rfl
  | Unchoke => rfl
  | Interested => rfl
  | NotInterested => rfl
  | Have index =>
    simp only [PeerMessage.valid, decide_eq_true_eq] at h
    simp [PeerMessage.into_bytes, PeerMessage.try_from, u32_to_be_bytes,
      u32_from_bytes, MESSAGE_ID_HAVE, MESSAGE_ID_CHOKE, MESSAGE_ID_UNCHOKE,
      MESSAGE_ID_INTERESTED, MESSAGE_ID_NOT_INTERESTED]
    omega
  | Bitfield bitfield =>
    simp [PeerMessage.into_bytes, PeerMessage.try_from, u32_to_be_bytes,
      MESSAGE_ID_BITFIELD, MESSAGE_ID_CHOKE, MESSAGE_ID_UNCHOKE,
      MESSAGE_ID_INTERESTED, MESSAGE_ID_NOT_INTERESTED, MESSAGE_ID_HAVE]
  | Request index begin length =>
    simp only [PeerMessage.valid, decide_eq_true_eq] at h
    simp [PeerMessage.into_bytes, PeerMessage.try_from, u32_to_be_bytes,
      u32_from_bytes, MESSAGE_ID_REQUEST, MESSAGE_ID_CHOKE, MESSAGE_ID_UNCHOKE,
      MESSAGE_ID_INTERESTED, MESSAGE_ID_NOT_INTERESTED, MESSAGE_ID_HAVE,
      MESSAGE_ID_BITFIELD]
    omega
  | Piece index begin block =>
    simp only [PeerMessage.valid, decide_eq_true_eq] at h
    simp [PeerMessage.into_bytes, PeerMessage.try_from, u32_to_be_bytes,
      u32_from_bytes, MESSAGE_ID_PIECE, MESSAGE_ID_CHOKE, MESSAGE_ID_UNCHOKE,
      MESSAGE_ID_INTERESTED, MESSAGE_ID_NOT_INTERESTED, MESSAGE_ID_HAVE,
      MESSAGE_ID_BITFIELD, MESSAGE_ID_REQUEST]
    omega
  | Cancel index begin length =>
    simp only [PeerMessage.valid, decide_eq_true_eq] at h
    simp [PeerMessage.into_bytes, PeerMessage.try_from, u32_to_be_bytes,
      u32_from_bytes, MESSAGE_ID_CANCEL, MESSAGE_ID_CHOKE, MESSAGE_ID_UNCHOKE,
      MESSAGE_ID_INTERESTED, MESSAGE_ID_NOT_INTERESTED, MESSAGE_ID_HAVE,
      MESSAGE_ID_BITFIELD, MESSAGE_ID_REQUEST, MESSAGE_ID_PIECE]
    omega

/-- C5: Frame codec round-trip: decoding the bytes after the 4-byte length
prefix of the encoding of any PeerMessage with valid u32 fields yields the
message back; and the Request with index 7, begin 32768, length 16384
encodes to exactly the 17 bytes 00 00 00 0D 06 00 00 00 07 00 00 80 00 00
00 40 00, which decode back to the same value. -/
theorem frame_codec_roundtrip :
    (∀ m : PeerMessage, m.valid = true →
      PeerMessage.try_from (m.into_bytes.drop 4) = .ok m)
    ∧ (PeerMessage.Request 7 32768 16384).into_bytes
        = [0x00, 0x00, 0x00, 0x0D, 0x06, 0x00, 0x00, 0x00, 0x07,
           0x00, 0x00, 0x80, 0x00, 0x00, 0x00, 0x40, 0x00]
    ∧ PeerMessage.try_from [0x06, 0x00, 0x00, 0x00, 0x07, 0x00, 0x00, 0x80,
        0x00, 0x00, 0x00, 0x40, 0x00] = .ok (PeerMessage.Request 7 32768 16384) :=
  ⟨peer_message_decode_encode, by rfl, by rfl⟩

/-- C5 witness: the round-trip applied to the Request with index 7, begin
32768, length 16384. -/
theorem frame_codec_roundtrip_witness :
    (PeerMessage.Request 7 32768 16384).valid = true
    ∧ PeerMessage.try_from ((PeerMessage.Request 7 32768 16384).into_bytes.drop 4)
        = .ok (PeerMessage.Request 7 32768 16384) :=
  ⟨by decide, frame_codec_roundtrip.1 (PeerMessage.Request 7 32768 16384) (by decide)⟩

/-- C6 counterexample: the four zero bytes of a keepalive frame make
build_if_ready produce a Message too short error instead of an ignorable
message. -/
theorem keepalive_decode_error_counterexample :
    build_if_ready [0, 0, 0, 0] = some (.error "Message too short") := rfl

/-- C6 amended: whenever the inbound buffer starts with a frame whose u32
length prefix is 0, build_if_ready extracts an empty payload and the
TryFrom of PeerMessage rejects it with the error Message too short; the
keepalive is surfaced as a decode error, not ignored. -/
theorem keepalive_decode_error (buf : List Nat) (hlen : 4 ≤ buf.length)
    (hpre : buf.take 4 = [0, 0, 0, 0]) :
    build_if_ready buf = some (.error "Message too short") := by
  have hu : u32_from_bytes (buf.take 4) = 0 := by rw [hpre]; rfl
  unfold build_if_ready
  rw [if_neg (by omega)]
  simp only [hu]
  rw [if_neg (by omega)]
  simp [PeerMessage.try_from]

/-- C6 witness: the amended claim evaluated on a buffer holding a keepalive
frame followed by further inbound bytes. -/
theorem keepalive_decode_error_witness :
    build_if_ready [0, 0, 0, 0, 1, 2, 3] = some (.error "Message too short") :=
  keepalive_decode_error [0, 0, 0, 0, 1, 2, 3] (by decide) (by decide)

/-- C7 counterexample: a 68-byte handshake response whose echoed info hash
(bytes 28 to 48, all 2) differs from the info hash the client sent (all 1)
still makes Peer::connect succeed with the peer id of the response, instead
of failing with a MismatchedInfoHash error. -/
theorem handshake_no_info_hash_check_counterexample :
    ((handshake_new (List.replicate 20 2) (List.replicate 20 9)).drop 28).take 20
        ≠ List.replicate 20 1
    ∧ peer_connect (List.replicate 20 1) (List.replicate 20 3)
        (handshake_new (List.replicate 20 2) (List.replicate 20 9))
      = .ok (handshake_new (List.replicate 20 1) (List.replicate 20 3),
             List.replicate 20 9) := by
  exact ⟨by decide, by rfl⟩

/-- C7 amended: for every 68-byte handshake response, Peer::connect succeeds
and returns bytes 48 to 68 of the response as the remote peer id, whether or
not the echoed info hash at bytes 28 to 48 matches the info hash the client
sent: the code never compares them and has no MismatchedInfoHash error. -/
theorem handshake_returns_peer_id (info_hash peer_id resp : List Nat)
    (h : resp.length = 68) :
    peer_connect info_hash peer_id resp
      = .ok (handshake_new info_hash peer_id, (resp.drop 48).take 20) := by
  unfold peer_connect HANDSHAKE_SIZE
  rw [if_neg (by omega)]
  rfl

/-- C7 witness: the amended claim evaluated on the all-zero 68-byte
response. -/
theorem handshake_returns_peer_id_witness :
    peer_connect (List.replicate 20 1) (List.replicate 20 3) (List.replicate 68 0)
      = .ok (handshake_new (List.replicate 20 1) (List.replicate 20 3),
             List.replicate 20 0) := by
  rw [handshake_returns_peer_id (List.replicate 20 1) (List.replicate 20 3)
    (List.replicate 68 0) (by decide)]
  rfl

set_option maxRecDepth 40000 in
/-- C8 counterexample: the SHA-1 digest of the concrete metadata blob
sampleMetadata is 96 a0 c2 b5 4d 79 fd f0 f3 a5 67 cc ae 8e db 15 96 09 51
b0, which differs from the magnet info hash of twenty zero bytes, yet the
client accepts the metadata and returns the parsed Info: no
MetadataHashMismatch failure occurs. -/
theorem metadata_hash_mismatch_accepted_counterexample :
    sha1 sampleMetadata = [0x96, 0xa0, 0xc2, 0xb5, 0x4d, 0x79, 0xfd, 0xf0,
      0xf3, 0xa5, 0x67, 0xcc, 0xae, 0x8e, 0xdb, 0x15, 0x96, 0x09, 0x51, 0xb0]
    ∧ sha1 sampleMetadata ≠ List.replicate 20 0
    ∧ get_ext_info_on_metadata sampleMetadata (List.replicate 20 0)
        = .ok sampleInfo := by
  refine ⟨by decide, by decide, by rfl⟩

/-- C8 amended: the client deserializes the fetched metadata directly into
Info and accepts it whenever it parses; the result does not depend on the
magnet info hash, because no SHA-1 of the metadata is computed and no digest
comparison occurs. -/
theorem metadata_accepted_without_hash_check :
    (∀ data ih1 ih2 : List Nat,
        get_ext_info_on_metadata data ih1 = get_ext_info_on_metadata data ih2)
    ∧ (∀ (data ih : List Nat) (info : Info) (rest : List Nat),
        Info.deserialize data = .ok (info, rest) →
        get_ext_info_on_metadata data ih = .ok info) := by
  constructor
  · intro data ih1 ih2
    rfl
  · intro data ih info rest h
    unfold get_ext_info_on_metadata
    rw [h]

set_option maxRecDepth 40000 in
/-- C8 witness: the amended claim evaluated on the concrete metadata blob
and an arbitrary magnet info hash of twenty 7 bytes. -/
theorem metadata_accepted_without_hash_check_witness :
    Info.deserialize sampleMetadata = .ok (sampleInfo, [])
    ∧ get_ext_info_on_metadata sampleMetadata (List.replicate 20 7)
        = .ok sampleInfo := by
  have hparse : Info.deserialize sampleMetadata = .ok (sampleInfo, []) := by rfl
  exact ⟨hparse, metadata_accepted_without_hash_check.2 sampleMetadata
    (List.replicate 20 7) sampleInfo [] hparse⟩

end BitTorrent
